import Mathlib

/-
  Verification of the row-normalization engine of the bucket-list-gas
  repository (src/Code.js): calculateAge, the per-field parsers, the
  convertSheetDataToObjects pipeline, isValidCallback and doGet.

  Modelling conventions:
  * A JavaScript Date value is modelled by its UTC civil fields (structure DT).
    For well-formed dates the lexicographic order on the fields coincides with
    the order of the underlying epoch-milliseconds value, so getTime()
    comparisons are modelled by dtLt.  The model covers years 0..9999, the
    simple form of the ECMAScript Date Time String Format.
  * Date.prototype.toISOString is rendered positionally from the civil fields;
    new Date(string) is modelled by jsParseDate, which accepts the canonical
    24-character format that toISOString emits and rejects everything else.
  * Cell values are an inductive Value covering string, number, boolean, Date,
    Invalid Date, null and undefined.  Records (JS objects) are ordered
    association lists with single-slot assignment, as JS property tables.
  * The wall clock is passed explicitly: the single new Date() captured by
    convertSheetDataToObjects becomes a parameter carrying both the UTC civil
    fields and the local (JST, per the BIRTH_DATE comment in the source)
    year/month/day that getFullYear/getMonth/getDate would return.
-/

set_option maxHeartbeats 1000000

namespace GasApi

/-- UTC civil fields of a JS Date value (month 1..12, day 1..31). -/
structure DT where
  year : Nat
  month : Nat
  day : Nat
  hour : Nat
  minute : Nat
  second : Nat
  milli : Nat
deriving DecidableEq

/-- Gregorian leap-year test. -/
def isLeap (y : Nat) : Bool := y % 4 == 0 && (y % 100 != 0 || y % 400 == 0)

/-- Number of days in a month of the proleptic Gregorian calendar. -/
def daysInMonth (y m : Nat) : Nat :=
  if m == 1 || m == 3 || m == 5 || m == 7 || m == 8 || m == 10 || m == 12 then 31
  else if m == 4 || m == 6 || m == 9 || m == 11 then 30
  else if isLeap y then 29 else 28

/-- Well-formedness of the civil fields: exactly the tuples that are the UTC
decomposition of some real JS Date with year in 0..9999. -/
def DT.wf (d : DT) : Bool :=
  d.year ≤ 9999 && 1 ≤ d.month && d.month ≤ 12 && 1 ≤ d.day
    && d.day ≤ daysInMonth d.year d.month
    && d.hour ≤ 23 && d.minute ≤ 59 && d.second ≤ 59 && d.milli ≤ 999

/-- Lexicographic order on civil fields; for well-formed dates this is exactly
the order of getTime() values. -/
def dtLt (a b : DT) : Bool :=
  if a.year ≠ b.year then decide (a.year < b.year)
  else if a.month ≠ b.month then decide (a.month < b.month)
  else if a.day ≠ b.day then decide (a.day < b.day)
  else if a.hour ≠ b.hour then decide (a.hour < b.hour)
  else if a.minute ≠ b.minute then decide (a.minute < b.minute)
  else if a.second ≠ b.second then decide (a.second < b.second)
  else decide (a.milli < b.milli)

/-- The decimal digit character for n % 10. -/
def digitChar (n : Nat) : Char :=
  List.getD ['0', '1', '2', '3', '4', '5', '6', '7', '8', '9'] (n % 10) '0'

/-- Numeric value of a decimal digit character. -/
def digitVal (c : Char) : Nat := c.toNat - 48

/-- Two-digit zero-padded decimal rendering (low two digits of n). -/
def pad2 (n : Nat) : List Char := [digitChar (n / 10), digitChar n]

/-- Three-digit zero-padded decimal rendering. -/
def pad3 (n : Nat) : List Char := [digitChar (n / 100), digitChar (n / 10), digitChar n]

/-- Four-digit zero-padded decimal rendering. -/
def pad4 (n : Nat) : List Char :=
  [digitChar (n / 1000), digitChar (n / 100), digitChar (n / 10), digitChar n]

/-- Character list of the canonical ISO-8601 rendering, as produced by
Date.prototype.toISOString: YYYY-MM-DDTHH:MM:SS.mmmZ. -/
def isoChars (d : DT) : List Char :=
  pad4 d.year ++ '-' :: pad2 d.month ++ '-' :: pad2 d.day ++ 'T' :: pad2 d.hour
    ++ ':' :: pad2 d.minute ++ ':' :: pad2 d.second ++ '.' :: pad3 d.milli ++ ['Z']

/-- Model of Date.prototype.toISOString on a well-formed Date value. -/
def toISOString (d : DT) : String := String.mk (isoChars d)

/-- Final validity check of the date parser. -/
def validDT (dt : DT) : Option DT := if dt.wf then some dt else none

/-- Model of new Date(string): accepts the canonical simple form of the
ECMAScript Date Time String Format (exactly what toISOString emits) with
calendar-valid fields; every other string is treated as an unparsable date.
The host also accepts some shorter forms of the format; those never arise in
this development and are conservatively mapped to Invalid Date. -/
def jsParseDate (s : String) : Option DT :=
  match s.data with
  | [y1, y2, y3, y4, c1, o1, o2, c2, d1, d2, c3, h1, h2, c4, i1, i2, c5, e1, e2, c6, m1, m2, m3, c7] =>
    if c1 == '-' && c2 == '-' && c3 == 'T' && c4 == ':' && c5 == ':' && c6 == '.' && c7 == 'Z'
        && y1.isDigit && y2.isDigit && y3.isDigit && y4.isDigit
        && o1.isDigit && o2.isDigit && d1.isDigit && d2.isDigit
        && h1.isDigit && h2.isDigit && i1.isDigit && i2.isDigit
        && e1.isDigit && e2.isDigit && m1.isDigit && m2.isDigit && m3.isDigit then
      validDT ⟨1000 * digitVal y1 + 100 * digitVal y2 + 10 * digitVal y3 + digitVal y4,
        10 * digitVal o1 + digitVal o2, 10 * digitVal d1 + digitVal d2,
        10 * digitVal h1 + digitVal h2, 10 * digitVal i1 + digitVal i2,
        10 * digitVal e1 + digitVal e2,
        100 * digitVal m1 + 10 * digitVal m2 + digitVal m3⟩
    else none
  | _ => none

/-- JS whitespace test, covering the whitespace forms occurring in this
development; used to model String.prototype.trim. -/
def wsChar (c : Char) : Bool := c == ' ' || c == '\t' || c == '\n' || c == '\r'

/-- Model of String.prototype.trim. -/
def jsTrim (s : String) : String :=
  String.mk (((s.data.dropWhile wsChar).reverse.dropWhile wsChar).reverse)

/-- ASCII lowercasing of one character, as String.prototype.toLowerCase acts
on the character range of this development. -/
def lowerChar (c : Char) : Char :=
  if 'A' ≤ c ∧ c ≤ 'Z' then Char.ofNat (c.toNat + 32) else c

/-- Model of String.prototype.toLowerCase. -/
def jsToLower (s : String) : String := String.mk (s.data.map lowerChar)

/-- Whether the first list leads the second one. -/
def leadChars : List Char → List Char → Bool
  | [], _ => true
  | _ :: _, [] => false
  | a :: as, b :: bs => a == b && leadChars as bs

/-- Whether p starts the string s; used to model the anchored regex
alternation of parse.image_url. -/
def strStartsWith (s p : String) : Bool := leadChars p.data s.data

/-- A spreadsheet cell value / JS value: string, number, boolean, Date,
Invalid Date, null or undefined.  Numbers are modelled as integers (every
numeric cell in this development is integral). -/
inductive Value where
  | str (s : String)
  | num (n : Int)
  | boolean (b : Bool)
  | date (d : DT)
  | invalidDate
  | null
  | undef
deriving DecidableEq

/-- Model of the implicit String(v) conversion.  A valid Date renders as an
opening word followed by its fields (the host gives a locale string such as
"Mon Sep 02 2024 ..."); all that matters for the program is that it is not
numeric-leading and is none of the truthy keywords, which the model
preserves. -/
def jsToString : Value → String
  | .str s => s
  | .num n => toString n
  | .boolean b => if b then "true" else "false"
  | .date d => "Date(" ++ toISOString d ++ ")"
  | .invalidDate => "Invalid Date"
  | .null => "null"
  | .undef => "undefined"

/-- safeTrim from the source: String(v ?? "").trim(). -/
def safeTrim (v : Value) : String :=
  jsTrim (match v with
    | .null => ""
    | .undef => ""
    | w => jsToString w)

/-- JS truthiness of a value. -/
def truthy : Value → Bool
  | .str s => s != ""
  | .num n => n != 0
  | .boolean b => b
  | .date _ => true
  | .invalidDate => true
  | .null => false
  | .undef => false

/-- Accumulate the numeric value of a list of decimal digit characters. -/
def digitsVal : List Char → Nat → Nat
  | [], acc => acc
  | c :: rest, acc => digitsVal rest (10 * acc + digitVal c)

/-- The leading digit run of a character list, as a number; none if the list
does not start with a digit. -/
def parseDigits (l : List Char) : Option Nat :=
  let ds := l.takeWhile Char.isDigit
  if ds = [] then none else some (digitsVal ds 0)

/-- Model of parseInt(s, 10): skip leading whitespace, optional sign, then the
leading run of decimal digits; NaN (none) if there is none. -/
def parseIntStr (s : String) : Option Int :=
  match s.data.dropWhile wsChar with
  | '-' :: rest => (parseDigits rest).map (fun n => -(n : Int))
  | '+' :: rest => (parseDigits rest).map (fun n => (n : Int))
  | l => (parseDigits l).map (fun n => (n : Int))

/-- Model of parseInt(v, 10) on a cell value: parseInt first applies String().
String() of null, undefined, booleans and dates never begins with an optional
sign followed by a digit, so those are NaN. -/
def jsParseIntV : Value → Option Int
  | .num n => some n
  | .str s => parseIntStr s
  | _ => none

/-- parse.id from the source. -/
def parse_id (v : Value) : Value :=
  match jsParseIntV v with
  | none => Value.null
  | some n => Value.num n

/-- parse.target_age from the source; nta is context.normalizedTargetAge.
The test v == null is the loose comparison, true for null and undefined. -/
def parse_target_age (nta : Int) (v : Value) : Value :=
  match jsParseIntV v with
  | none => Value.num nta
  | some a =>
    if v == Value.null || v == Value.undef || a < nta || a > 100 then Value.num nta
    else Value.num (Int.fdiv a 10 * 10)

/-- parse.completed from the source. -/
def parse_completed (v : Value) : Value :=
  let s := jsToLower (jsTrim (jsToString v))
  Value.boolean (s == "true" || s == "1" || s == "yes" || v == Value.boolean true)

/-- parse.image_url from the source; the regex is anchored alternation of
http://, https:// and data:image/ prefixes. -/
def parse_image_url (v : Value) : Value :=
  let url := safeTrim v
  if strStartsWith url "http://" || strStartsWith url "https://"
      || strStartsWith url "data:image/" then Value.str url
  else Value.str ""

/-- parse.string from the source. -/
def parse_string (v : Value) : Value := Value.str (safeTrim v)

/-- parse.completed_at from the source: a valid Date instance renders to its
ISO string; a non-empty string that parses as a date renders to the ISO
string of the parsed date; everything else is null.  There is no future check
here; that happens only in the cross-field pass. -/
def parse_completed_at (v : Value) : Value :=
  match v with
  | .date d => Value.str (toISOString d)
  | .invalidDate => Value.null
  | .str s =>
    if jsTrim s != "" then
      match jsParseDate (jsTrim s) with
      | some d => Value.str (toISOString d)
      | none => Value.null
    else Value.null
  | _ => Value.null

/-- headerToParserMap plus the parse.default fallback. -/
def parseField (h : String) (nta : Int) (v : Value) : Value :=
  if h = "id" then parse_id v
  else if h = "target_age" then parse_target_age nta v
  else if h = "completed" then parse_completed v
  else if h = "image_url" then parse_image_url v
  else if h = "category" then parse_string v
  else if h = "title" then parse_string v
  else if h = "note" then parse_string v
  else if h = "completed_at" then parse_completed_at v
  else v

/-- A JS object: ordered property table. -/
abbrev Record := List (String × Value)

/-- Property read; absent properties read as undefined. -/
def getProp : Record → String → Value
  | [], _ => Value.undef
  | (k, v) :: rest, key => if k = key then v else getProp rest key

/-- Property assignment: overwrite in place, or append a new slot. -/
def setProp : Record → String → Value → Record
  | [], key, v => [(key, v)]
  | (k, w) :: rest, key, v =>
    if k = key then (key, v) :: rest else (k, w) :: setProp rest key v

/-- Property-existence test. -/
def hasProp (r : Record) (key : String) : Bool := r.any (fun p => p.1 == key)

/-- Local calendar fields of a timestamp, as returned by getFullYear,
getMonth (0-indexed) and getDate. -/
structure YMD where
  year : Int
  month : Int
  day : Int
deriving DecidableEq

/-- calculateAge from the source, on the extracted calendar fields. -/
def calculateAge (birthDate nowDate : YMD) : Int :=
  let age := nowDate.year - birthDate.year
  if nowDate.month < birthDate.month
      ∨ (nowDate.month = birthDate.month ∧ nowDate.day < birthDate.day) then age - 1
  else age

/-- BIRTH_DATE = new Date("1979-09-02T00:00:00+09:00"): its local (JST)
calendar fields are year 1979, getMonth 8 (September), getDate 2. -/
def BIRTH_DATE : YMD := ⟨1979, 8, 2⟩

/-- The one new Date() captured per call: its UTC civil fields (for getTime
and toISOString) together with the local calendar fields that
getFullYear/getMonth/getDate return for it. -/
structure Now where
  dt : DT
  localDate : YMD

/-- Math.floor(calculateAge(BIRTH_DATE, now) / 10) * 10. -/
def normalizedTargetAge (now : Now) : Int :=
  Int.fdiv (calculateAge BIRTH_DATE now.localDate) 10 * 10

/-- Header normalization: safeTrim(h).toLowerCase(). -/
def normalizeHeader (v : Value) : String := jsToLower (safeTrim v)

/-- Index-value pairs, as supplied to the reduce callback. -/
def enumIdx : Nat → List String → List (Nat × String)
  | _, [] => []
  | i, h :: rest => (i, h) :: enumIdx (i + 1) rest

/-- The reduce that builds one record from one row: for each header position,
assign the parsed cell (row[index] reads as undefined past the end). -/
def buildObjAux (nta : Int) (row : List Value) : List (Nat × String) → Record → Record
  | [], acc => acc
  | (i, h) :: rest, acc =>
    buildObjAux nta row rest (setProp acc h (parseField h nta (List.getD row i Value.undef)))

def buildObj (nh : List String) (nta : Int) (row : List Value) : Record :=
  buildObjAux nta row (enumIdx 0 nh) []

/-- The cross-field consistency pass.  When completed is truthy and
completed_at is a truthy value, the code evaluates new Date(completed_at) and
overrides only when its getTime() is strictly greater than now (NaN
comparisons are false, so an unparsable string would be kept).  The truthy
non-string case cannot arise from buildObj: the completed_at slot is only
ever null or an ISO string. -/
def postProcess (now : Now) (obj : Record) : Record :=
  if truthy (getProp obj "completed") then
    if truthy (getProp obj "completed_at") then
      match getProp obj "completed_at" with
      | Value.str s =>
        match jsParseDate s with
        | some d =>
          if dtLt now.dt d then setProp obj "completed_at" (Value.str (toISOString now.dt))
          else obj
        | none => obj
      | _ => obj
    else setProp obj "completed_at" (Value.str (toISOString now.dt))
  else setProp obj "completed_at" Value.null

/-- convertSheetDataToObjects from the source, on a (well-typed) 2D array.
The destructuring headerRow test !headerRow is the empty-input case here: a
real array value for headerRow is never falsy. -/
def convertSheetDataToObjects (now : Now) (data : List (List Value)) : List Record :=
  match data with
  | [] => []
  | headerRow :: rows =>
    let normalizedHeaders := headerRow.map normalizeHeader
    let nta := normalizedTargetAge now
    rows.map (fun row => postProcess now (buildObj normalizedHeaders nta row))

/-- A JS value passed to convertSheetDataToObjects before any type check:
either a well-formed 2D array or some other value. -/
inductive DynInput where
  | arr (data : List (List Value))
  | prim (v : Value)

/-- JS-level behavior of convertSheetDataToObjects, including what the array
destructuring on the first line does to ill-formed input: destructuring a
non-iterable value (null, undefined, number, boolean, object) throws a
TypeError; a non-empty string destructures into one-character strings and the
subsequent headerRow.map call throws a TypeError; the empty string
destructures to an undefined headerRow and returns []. -/
def convertSheetDataToObjectsDyn (now : Now) : DynInput → Except String (List Record)
  | .arr data => .ok (convertSheetDataToObjects now data)
  | .prim (Value.str s) =>
    if s = "" then .ok []
    else .error "TypeError: headerRow.map is not a function"
  | .prim _ => .error "TypeError: value is not iterable"

/-- Date well-formedness of a cell value: real JS Dates always carry in-range
civil fields. -/
def wfValue : Value → Bool
  | .date d => d.wf
  | _ => true

def wfRow (row : List Value) : Bool := row.all wfValue

def wfData (data : List (List Value)) : Bool := data.all wfRow

/-- The regex class [A-Za-z], by ASCII code. -/
def alphaChar (c : Char) : Bool :=
  decide ((65 ≤ c.toNat ∧ c.toNat ≤ 90) ∨ (97 ≤ c.toNat ∧ c.toNat ≤ 122))

/-- The regex class [0-9], by ASCII code. -/
def digitClass (c : Char) : Bool := decide (48 ≤ c.toNat ∧ c.toNat ≤ 57)

/-- First character of a JS identifier segment: [A-Za-z_$]. -/
def identStartChar (c : Char) : Bool := alphaChar c || c == '_' || c == '$'

/-- Later character of a JS identifier segment: [0-9A-Za-z_$]. -/
def identChar (c : Char) : Bool := identStartChar c || digitClass c

/-- Split a character list at every dot (anchored: empty segments are kept, so
leading, trailing or doubled dots produce an empty segment). -/
def splitDot : List Char → List (List Char)
  | [] => [[]]
  | c :: rest =>
    match splitDot rest with
    | [] => [[]]
    | g :: gs => if c = '.' then [] :: g :: gs else (c :: g) :: gs

/-- One segment of the callback regex: [A-Za-z_$][0-9A-Za-z_$]*. -/
def segChars : List Char → Bool
  | [] => false
  | c :: rest => identStartChar c && rest.all identChar

/-- isValidCallback from the source: a non-empty string matching the anchored
regex of dot-separated identifier segments; every non-string value is falsy
or fails the typeof check. -/
def isValidCallback : Value → Bool
  | Value.str s => if s = "" then false else (splitDot s.data).all segChars
  | _ => false

/-- Join character-list segments with dots (inverse of splitDot). -/
def joinDot : List (List Char) → List Char
  | [] => []
  | [g] => g
  | g :: gs => g ++ '.' :: joinDot gs

/-- Stated from the claim wording, for the refinement comparison with
isValidCallback: a segment of letters, digits, underscore and dollar that
does not start with a digit. -/
def specSegment (g : List Char) : Prop :=
  g ≠ [] ∧ (∀ c ∈ g, alphaChar c = true ∨ digitClass c = true ∨ c = '_' ∨ c = '$')
    ∧ ∀ c, g.head? = some c → digitClass c = false

/-- Stated from the claim wording: a dotted identifier, i.e. non-empty
segments joined by dots. -/
def specDottedIdentifier (s : String) : Prop :=
  ∃ segs : List (List Char), segs ≠ [] ∧ (∀ g ∈ segs, specSegment g)
    ∧ s.data = joinDot segs

inductive Mime where
  | json
  | javascript
deriving DecidableEq

/-- A ContentService text output: content string and MIME type. -/
structure TextOutput where
  content : String
  mime : Mime
deriving DecidableEq

/-- Model of JSON.stringify on one property value, for payloads without
characters that need escaping; Date values serialize through toJSON as their
ISO string, an invalid Date as null, and undefined-valued properties are
omitted (none). -/
def jsonValue : Value → Option String
  | .str s => some ("\"" ++ s ++ "\"")
  | .num n => some (toString n)
  | .boolean b => some (if b then "true" else "false")
  | .null => some "null"
  | .date d => some ("\"" ++ toISOString d ++ "\"")
  | .invalidDate => some "null"
  | .undef => none

def jsonRecord (r : Record) : String :=
  "\x7b" ++ String.intercalate ","
    (r.filterMap (fun p => (jsonValue p.2).map (fun sv => "\"" ++ p.1 ++ "\":" ++ sv)))
    ++ "\x7d"

def jsonStringify (rs : List Record) : String :=
  "[" ++ String.intercalate "," (rs.map jsonRecord) ++ "]"

/-- createErrorResponse from the source (the host message quotes the sheet
name). -/
def createErrorResponse (message : String) (statusCode : Int) : TextOutput :=
  ⟨"\x7b\"error\":\x7b\"code\":" ++ toString statusCode ++ ",\"message\":\""
    ++ message ++ "\"\x7d\x7d", Mime.json⟩

/-- doGet from the source.  Sheet access is external: sheetFound says whether
getSheetByName("list") succeeded and values is the fetched 2D range (empty
when the sheet has no rows or columns); callback is e.parameter.callback,
undefined when absent. -/
def doGet (now : Now) (sheetFound : Bool) (values : List (List Value))
    (callback : Value) : TextOutput :=
  if sheetFound = false then createErrorResponse "Sheet list not found." 404
  else
    let result := convertSheetDataToObjects now values
    if isValidCallback callback then
      ⟨jsToString callback ++ "(" ++ jsonStringify result ++ ");", Mime.javascript⟩
    else
      ⟨jsonStringify result, Mime.json⟩

/-- Feeding a normalized record back in as a data row under the same header
row: the cell under each header column is the record value at that column
key (absent keys read as undefined). -/
def rowOfRecord (headerRow : List Value) (rec : Record) : List Value :=
  headerRow.map (fun h => getProp rec (normalizeHeader h))

/-- The parsed value written last into a record slot by the reduce: the
rightmost index-header pair matching the key wins. -/
def lastParsed (nta : Int) (row : List Value) : List (Nat × String) → String → Option Value
  | [], _ => none
  | (i, h) :: rest, key =>
    match lastParsed nta row rest key with
    | some v => some v
    | none =>
      if h = key then some (parseField h nta (List.getD row i Value.undef)) else none

/-- A concrete call instant for the closed concrete-instance theorems:
2024-07-31T10:00:00.000Z, whose JST calendar fields are 2024-07-31
(getMonth 6). -/
def now0 : Now := ⟨⟨2024, 7, 31, 10, 0, 0, 0⟩, ⟨2024, 6, 31⟩⟩

theorem daysInMonth_le (y m : Nat) : daysInMonth y m ≤ 31 := by
  unfold daysInMonth
  repeat' split
  all_goals decide

theorem dtLt_irrefl (a : DT) : dtLt a a = false := by
  simp [dtLt]

theorem isDigit_digitChar (n : Nat) : (digitChar n).isDigit = true := by
  have h : n % 10 < 10 := Nat.mod_lt _ (by decide)
  unfold digitChar
  interval_cases h' : n % 10 <;> decide

theorem digitVal_digitChar (n : Nat) : digitVal (digitChar n) = n % 10 := by
  have h : n % 10 < 10 := Nat.mod_lt _ (by decide)
  unfold digitChar digitVal
  interval_cases h' : n % 10 <;> decide

/-- The character list underlying a String built with String.mk. -/
theorem data_mk (l : List Char) : (String.mk l).data = l := rfl

theorem validDT_some {dt d : DT} (h : validDT dt = some d) : d.wf = true := by
  unfold validDT at h
  split at h
  · cases h
    assumption
  · exact absurd h (by simp)

theorem jsParseDate_wf {s : String} {d : DT} (h : jsParseDate s = some d) : d.wf = true := by
  unfold jsParseDate at h
  split at h
  · split at h
    · exact validDT_some h
    · exact absurd h (by simp)
  · exact absurd h (by simp)

/-- Round trip: parsing back the canonical ISO rendering of a well-formed Date
recovers the Date, as guaranteed for the host Date object by ECMA-262. -/
theorem jsParseDate_toISOString {d : DT} (h : d.wf = true) :
    jsParseDate (toISOString d) = some d := by
  obtain ⟨y, mo, dy, hh, mi, se, ms⟩ := d
  have hb : y ≤ 9999 ∧ 1 ≤ mo ∧ mo ≤ 12 ∧ 1 ≤ dy ∧ dy ≤ daysInMonth y mo
      ∧ hh ≤ 23 ∧ mi ≤ 59 ∧ se ≤ 59 ∧ ms ≤ 999 := by
    simpa [DT.wf, Bool.and_eq_true, decide_eq_true_eq, and_assoc] using h
  have hdy31 : dy ≤ 31 := le_trans hb.2.2.2.2.1 (daysInMonth_le y mo)
  show jsParseDate (String.mk (isoChars ⟨y, mo, dy, hh, mi, se, ms⟩)) = _
  rw [show isoChars ⟨y, mo, dy, hh, mi, se, ms⟩ =
      [digitChar (y / 1000), digitChar (y / 100), digitChar (y / 10), digitChar y, '-',
        digitChar (mo / 10), digitChar mo, '-', digitChar (dy / 10), digitChar dy, 'T',
        digitChar (hh / 10), digitChar hh, ':', digitChar (mi / 10), digitChar mi, ':',
        digitChar (se / 10), digitChar se, '.', digitChar (ms / 100), digitChar (ms / 10),
        digitChar ms, 'Z'] from rfl]
  simp only [jsParseDate, data_mk, isDigit_digitChar, Bool.and_true, Bool.true_and,
    beq_self_eq_true, validDT, digitVal_digitChar]
  rw [show 1000 * (y / 1000 % 10) + 100 * (y / 100 % 10) + 10 * (y / 10 % 10) + y % 10 = y
    by omega]
  rw [show 10 * (mo / 10 % 10) + mo % 10 = mo by omega]
  rw [show 10 * (dy / 10 % 10) + dy % 10 = dy by omega]
  rw [show 10 * (hh / 10 % 10) + hh % 10 = hh by omega]
  rw [show 10 * (mi / 10 % 10) + mi % 10 = mi by omega]
  rw [show 10 * (se / 10 % 10) + se % 10 = se by omega]
  rw [show 100 * (ms / 100 % 10) + 10 * (ms / 10 % 10) + ms % 10 = ms by omega]
  rw [h]
  rfl

theorem getProp_setProp (r : Record) (h key : String) (v : Value) :
    getProp (setProp r h v) key = if h = key then v else getProp r key := by
  induction r with
  | nil =>
    simp [setProp, getProp]
  | cons p rest ih =>
    obtain ⟨k, w⟩ := p
    by_cases hk : k = h
    · subst hk
      by_cases h2 : k = key <;> simp [setProp, getProp, h2]
    · by_cases h2 : k = key
      · subst h2
        have hne : h ≠ k := fun hh => hk hh.symm
        simp [setProp, getProp, hk, hne]
      · simp [setProp, getProp, hk, h2, ih]

theorem getProp_of_hasProp_false (r : Record) (key : String) (h : hasProp r key = false) :
    getProp r key = Value.undef := by
  induction r with
  | nil => rfl
  | cons p rest ih =>
    obtain ⟨k, w⟩ := p
    simp only [hasProp, List.any_cons, Bool.or_eq_false_iff, beq_eq_false_iff_ne] at h
    simp only [getProp, if_neg h.1]
    exact ih (by simpa [hasProp] using h.2)

theorem hasProp_of_getProp_ne {r : Record} {key : String}
    (h : getProp r key ≠ Value.undef) : hasProp r key = true := by
  by_contra hco
  exact h (getProp_of_hasProp_false r key (by simpa using hco))

theorem hasProp_setProp_self (r : Record) (key : String) (v : Value) :
    hasProp (setProp r key v) key = true := by
  induction r with
  | nil => simp [setProp, hasProp]
  | cons p rest ih =>
    obtain ⟨k, w⟩ := p
    by_cases hk : k = key
    · subst hk
      simp [setProp, hasProp]
    · simp only [setProp, if_neg hk, hasProp, List.any_cons, Bool.or_eq_true]
      exact Or.inr ih

theorem truthy_ne_undef {v : Value} (h : truthy v = true) : v ≠ Value.undef := by
  rintro rfl
  simp [truthy] at h

theorem getProp_buildObjAux (nta : Int) (row : List Value) (ps : List (Nat × String))
    (acc : Record) (key : String) :
    getProp (buildObjAux nta row ps acc) key
      = (lastParsed nta row ps key).getD (getProp acc key) := by
  induction ps generalizing acc with
  | nil => rfl
  | cons p rest ih =>
    obtain ⟨i, h⟩ := p
    simp only [buildObjAux, lastParsed]
    rw [ih]
    cases hl : lastParsed nta row rest key with
    | some v => simp
    | none =>
      rw [getProp_setProp]
      split_ifs with hh <;> simp [hh]

theorem getProp_buildObj (nh : List String) (nta : Int) (row : List Value) (key : String) :
    getProp (buildObj nh nta row) key
      = (lastParsed nta row (enumIdx 0 nh) key).getD Value.undef := by
  show getProp (buildObjAux nta row (enumIdx 0 nh) []) key = _
  rw [getProp_buildObjAux]
  rfl

theorem lastParsed_none (nta : Int) (row : List Value) (key : String) :
    ∀ ps, (∀ p ∈ ps, p.2 ≠ key) → lastParsed nta row ps key = none := by
  intro ps
  induction ps with
  | nil => intro; rfl
  | cons p rest ih =>
    intro hp
    obtain ⟨i, h⟩ := p
    have h1 : h ≠ key := hp (i, h) (by simp)
    have h2 := ih (fun q hq => hp q (by simp [hq]))
    simp only [lastParsed, h2, if_neg h1]

theorem enumIdx_mem {l : List String} {p : Nat × String} :
    ∀ {n : Nat}, p ∈ enumIdx n l → ∃ j, p.1 = n + j ∧ l.get? j = some p.2 := by
  induction l with
  | nil => intro n h; simp [enumIdx] at h
  | cons a rest ih =>
    intro n h
    simp only [enumIdx, List.mem_cons] at h
    rcases h with h | h
    · subst h
      exact ⟨0, by simp, by simp [List.get?]⟩
    · obtain ⟨j, hj1, hj2⟩ := ih h
      exact ⟨j + 1, by omega, by simpa [List.get?] using hj2⟩

theorem lastParsed_not_mem (nta : Int) (row : List Value) (key : String)
    (n : Nat) (l : List String) (hmem : key ∉ l) :
    lastParsed nta row (enumIdx n l) key = none := by
  apply lastParsed_none
  intro p hp
  obtain ⟨j, _, hj⟩ := enumIdx_mem hp
  intro hk
  exact hmem (hk ▸ List.get?_mem hj)

theorem lastParsed_isSome (nta : Int) (row : List Value) (key : String) :
    ∀ (l : List String) (n : Nat), key ∈ l →
      (lastParsed nta row (enumIdx n l) key).isSome = true := by
  intro l
  induction l with
  | nil => intro n h; simp at h
  | cons a rest ih =>
    intro n hmem
    simp only [enumIdx, lastParsed]
    cases hl : lastParsed nta row (enumIdx (n + 1) rest) key with
    | some v => simp
    | none =>
      rcases List.mem_cons.mp hmem with h | h
      · simp [h.symm]
      · have := ih (n + 1) h
        rw [hl] at this
        simp at this

theorem lastParsed_shape (nta : Int) (row : List Value) (key : String) :
    ∀ ps v, lastParsed nta row ps key = some v →
      ∃ i, v = parseField key nta (List.getD row i Value.undef) := by
  intro ps
  induction ps with
  | nil => intro v hv; simp [lastParsed] at hv
  | cons p rest ih =>
    obtain ⟨i, h⟩ := p
    intro v hv
    simp only [lastParsed] at hv
    cases hl : lastParsed nta row rest key with
    | some w =>
      rw [hl] at hv
      cases hv
      exact ih _ hl
    | none =>
      rw [hl] at hv
      split_ifs at hv with hh
      exact ⟨i, by cases hv; rw [hh]⟩

theorem lastParsed_rightmost (nta : Int) (row : List Value) (key : String) :
    ∀ (l : List String) (n i : Nat), l.get? i = some key →
      (∀ j, i < j → l.get? j ≠ some key) →
      lastParsed nta row (enumIdx n l) key
        = some (parseField key nta (List.getD row (n + i) Value.undef)) := by
  intro l
  induction l with
  | nil => intro n i hi; simp [List.get?] at hi
  | cons a rest ih =>
    intro n i hi hlast
    simp only [enumIdx, lastParsed]
    cases i with
    | zero =>
      have ha : a = key := by simpa [List.get?] using hi
      have hnone : lastParsed nta row (enumIdx (n + 1) rest) key = none := by
        apply lastParsed_not_mem
        intro hmem
        obtain ⟨j, hj⟩ := List.mem_iff_get?.mp hmem
        exact hlast (j + 1) (Nat.succ_pos j) (by simpa [List.get?] using hj)
      rw [hnone]
      simp [ha]
    | succ i =>
      have hi' : rest.get? i = some key := by simpa [List.get?] using hi
      have hlast' : ∀ j, i < j → rest.get? j ≠ some key := by
        intro j hj
        have := hlast (j + 1) (by omega)
        simpa [List.get?] using this
      rw [ih (n + 1) i hi' hlast']
      have : n + 1 + i = n + (i + 1) := by omega
      simp [this]

theorem toISOString_ne_empty (d : DT) : toISOString d ≠ "" := by
  intro h
  simpa [toISOString, data_mk, isoChars, pad4] using congrArg String.data h

theorem truthy_toISOString (d : DT) : truthy (Value.str (toISOString d)) = true := by
  simp [truthy, bne_iff_ne, toISOString_ne_empty]

theorem parse_completed_isBool (v : Value) : ∃ b, parse_completed v = Value.boolean b :=
  ⟨_, rfl⟩

theorem parse_completed_boolean (b : Bool) :
    parse_completed (Value.boolean b) = Value.boolean b := by
  cases b <;> decide

theorem wfValue_getD (row : List Value) (h : wfRow row = true) (i : Nat) :
    wfValue (List.getD row i Value.undef) = true := by
  induction row generalizing i with
  | nil => cases i <;> rfl
  | cons a rest ih =>
    simp only [wfRow, List.all_cons, Bool.and_eq_true] at h
    cases i with
    | zero => exact h.1
    | succ i => exact ih (by simpa [wfRow] using h.2) i

theorem parse_completed_at_shape (v : Value) (hwf : wfValue v = true) :
    parse_completed_at v = Value.null
      ∨ ∃ d, d.wf = true ∧ parse_completed_at v = Value.str (toISOString d) := by
  cases v with
  | date d => exact Or.inr ⟨d, by simpa [wfValue] using hwf, rfl⟩
  | str s =>
    simp only [parse_completed_at]
    split_ifs with h1
    · cases hp : jsParseDate (jsTrim s) with
      | some d => exact Or.inr ⟨d, jsParseDate_wf hp, rfl⟩
      | none => exact Or.inl rfl
    · exact Or.inl rfl
  | num n => exact Or.inl rfl
  | boolean b => exact Or.inl rfl
  | invalidDate => exact Or.inl rfl
  | null => exact Or.inl rfl
  | undef => exact Or.inl rfl

theorem wsChar_digitChar (n : Nat) : wsChar (digitChar n) = false := by
  have h : n % 10 < 10 := Nat.mod_lt _ (by decide)
  unfold digitChar
  interval_cases h' : n % 10 <;> decide

theorem dropWhile_noop {l : List Char}
    (h : ∀ c, l.head? = some c → wsChar c = false) :
    l.dropWhile wsChar = l := by
  cases l with
  | nil => rfl
  | cons a t => exact List.dropWhile_cons_of_neg (by simp [h a rfl])

theorem trim_noop {l : List Char}
    (h1 : ∀ c, l.head? = some c → wsChar c = false)
    (h2 : ∀ c, l.getLast? = some c → wsChar c = false) :
    ((l.dropWhile wsChar).reverse.dropWhile wsChar).reverse = l := by
  rw [dropWhile_noop h1]
  rw [dropWhile_noop (fun c hc => h2 c (by rwa [List.head?_reverse] at hc))]
  exact List.reverse_reverse l

theorem jsTrim_toISOString (d : DT) : jsTrim (toISOString d) = toISOString d := by
  unfold jsTrim toISOString
  rw [data_mk]
  refine congrArg String.mk (trim_noop ?_ ?_)
  · intro c hc
    rw [show (isoChars d).head? = some (digitChar (d.year / 1000)) from rfl] at hc
    cases hc
    exact wsChar_digitChar _
  · intro c hc
    rw [show (isoChars d).getLast? = some 'Z' from rfl] at hc
    cases hc
    rfl

theorem parse_completed_at_iso {d : DT} (hd : d.wf = true) :
    parse_completed_at (Value.str (toISOString d)) = Value.str (toISOString d) := by
  simp only [parse_completed_at, jsTrim_toISOString]
  rw [jsParseDate_toISOString hd]
  simp [bne_iff_ne, toISOString_ne_empty]

theorem getProp_postProcess_ne (now : Now) (obj : Record) (key : String)
    (hk : key ≠ "completed_at") :
    getProp (postProcess now obj) key = getProp obj key := by
  have hne : "completed_at" ≠ key := fun h => hk h.symm
  unfold postProcess
  repeat' split
  all_goals simp [getProp_setProp, hne]

theorem postProcess_completed_at_null (now : Now) (obj : Record)
    (h : truthy (getProp obj "completed") = false) :
    getProp (postProcess now obj) "completed_at" = Value.null := by
  simp [postProcess, h, getProp_setProp]

theorem postProcess_completed_at_default (now : Now) (obj : Record)
    (ht : truthy (getProp obj "completed") = true)
    (hca : truthy (getProp obj "completed_at") = false) :
    getProp (postProcess now obj) "completed_at" = Value.str (toISOString now.dt) := by
  simp [postProcess, ht, hca, getProp_setProp]

theorem postProcess_completed_at_keep (now : Now) (obj : Record) (d : DT)
    (ht : truthy (getProp obj "completed") = true) (hd : d.wf = true)
    (hstr : getProp obj "completed_at" = Value.str (toISOString d))
    (hlt : dtLt now.dt d = false) :
    getProp (postProcess now obj) "completed_at" = Value.str (toISOString d) := by
  simp [postProcess, ht, hstr, truthy_toISOString, jsParseDate_toISOString hd, hlt]

theorem postProcess_completed_at_override (now : Now) (obj : Record) (d : DT)
    (ht : truthy (getProp obj "completed") = true) (hd : d.wf = true)
    (hstr : getProp obj "completed_at" = Value.str (toISOString d))
    (hlt : dtLt now.dt d = true) :
    getProp (postProcess now obj) "completed_at" = Value.str (toISOString now.dt) := by
  simp [postProcess, ht, hstr, truthy_toISOString, jsParseDate_toISOString hd, hlt,
    getProp_setProp]

theorem hasProp_postProcess_completed_at (now : Now) (obj : Record) :
    hasProp (postProcess now obj) "completed_at" = true := by
  unfold postProcess
  repeat' split
  all_goals first
    | exact hasProp_setProp_self _ _ _
    | (apply hasProp_of_getProp_ne; apply truthy_ne_undef; assumption)

theorem buildObj_not_mem (nh : List String) (nta : Int) (row : List Value) (key : String)
    (h : key ∉ nh) : getProp (buildObj nh nta row) key = Value.undef := by
  rw [getProp_buildObj, lastParsed_not_mem _ _ _ _ _ h]
  rfl

theorem buildObj_completed_bool (nh : List String) (nta : Int) (row : List Value)
    (hmem : "completed" ∈ nh) :
    ∃ b, getProp (buildObj nh nta row) "completed" = Value.boolean b := by
  rw [getProp_buildObj]
  have hs := lastParsed_isSome nta row "completed" nh 0 hmem
  cases hl : lastParsed nta row (enumIdx 0 nh) "completed" with
  | none => rw [hl] at hs; simp at hs
  | some v =>
    obtain ⟨i, hv⟩ := lastParsed_shape _ _ _ _ _ hl
    exact ⟨_, by rw [Option.getD_some, hv]; rfl⟩

theorem buildObj_completed_at_mem (nh : List String) (nta : Int) (row : List Value)
    (hw : wfRow row = true) (hmem : "completed_at" ∈ nh) :
    getProp (buildObj nh nta row) "completed_at" = Value.null
    ∨ ∃ d, d.wf = true
        ∧ getProp (buildObj nh nta row) "completed_at" = Value.str (toISOString d) := by
  rw [getProp_buildObj]
  have hs := lastParsed_isSome nta row "completed_at" nh 0 hmem
  cases hl : lastParsed nta row (enumIdx 0 nh) "completed_at" with
  | none => rw [hl] at hs; simp at hs
  | some v =>
    obtain ⟨i, hv⟩ := lastParsed_shape _ _ _ _ _ hl
    rw [show parseField "completed_at" nta (List.getD row i Value.undef)
        = parse_completed_at (List.getD row i Value.undef) from rfl] at hv
    rcases parse_completed_at_shape (List.getD row i Value.undef) (wfValue_getD row hw i)
      with h | ⟨d, hd, h⟩
    · exact Or.inl (by rw [Option.getD_some, hv, h])
    · exact Or.inr ⟨d, hd, by rw [Option.getD_some, hv, h]⟩

/-- Final completed_at of one normalized record when completed parsed truthy:
always a well-formed, non-future ISO string. -/
theorem pass_completed_at (now : Now) (hwfnow : now.dt.wf = true)
    (nh : List String) (nta : Int) (row : List Value) (hw : wfRow row = true)
    (ht : truthy (getProp (buildObj nh nta row) "completed") = true) :
    ∃ d, d.wf = true ∧ dtLt now.dt d = false
      ∧ getProp (postProcess now (buildObj nh nta row)) "completed_at"
          = Value.str (toISOString d) := by
  by_cases hmem : "completed_at" ∈ nh
  · rcases buildObj_completed_at_mem nh nta row hw hmem with h | ⟨d, hd, h⟩
    · exact ⟨now.dt, hwfnow, dtLt_irrefl _,
        postProcess_completed_at_default now _ ht (by rw [h]; rfl)⟩
    · cases hlt : dtLt now.dt d with
      | true => exact ⟨now.dt, hwfnow, dtLt_irrefl _,
          postProcess_completed_at_override now _ d ht hd h hlt⟩
      | false => exact ⟨d, hd, hlt, postProcess_completed_at_keep now _ d ht hd h hlt⟩
  · have h := buildObj_not_mem nh nta row "completed_at" hmem
    exact ⟨now.dt, hwfnow, dtLt_irrefl _,
      postProcess_completed_at_default now _ ht (by rw [h]; rfl)⟩

theorem lastParsed_feedback (nta : Int) (row2 : List Value) (g : String → Value) :
    ∀ (ps : List (Nat × String)) (key : String),
      (∀ p ∈ ps, List.getD row2 p.1 Value.undef = g p.2) →
      lastParsed nta row2 ps key
        = if ps.any (fun p => p.2 == key) then some (parseField key nta (g key))
          else none := by
  intro ps
  induction ps with
  | nil => intro key h; rfl
  | cons p rest ih =>
    obtain ⟨i, h⟩ := p
    intro key hcell
    simp only [lastParsed, List.any_cons]
    rw [ih key (fun q hq => hcell q (List.mem_cons_of_mem _ hq))]
    have hhead : List.getD row2 i Value.undef = g h := hcell (i, h) (by simp)
    by_cases hrest : rest.any (fun p => p.2 == key) = true
    · simp [hrest]
    · simp only [Bool.not_eq_true] at hrest
      simp only [hrest, Bool.false_eq_true, if_false, Bool.or_false]
      by_cases hk : h = key
      · subst hk
        rw [List.getD_eq_getElem?_getD] at hhead
        simp [hhead]
      · simp [hk, beq_eq_false_iff_ne.mpr hk]

theorem enumIdx_any (key : String) :
    ∀ (l : List String) (n : Nat),
      (enumIdx n l).any (fun p => p.2 == key) = l.any (fun h => h == key) := by
  intro l
  induction l with
  | nil => intro n; rfl
  | cons a rest ih => intro n; simp [enumIdx, List.any_cons, ih]

theorem rowOfRecord_cells (hdrRow : List Value) (rec : Record) :
    ∀ p ∈ enumIdx 0 (hdrRow.map normalizeHeader),
      List.getD (rowOfRecord hdrRow rec) p.1 Value.undef = getProp rec p.2 := by
  intro p hp
  obtain ⟨j, hj1, hj2⟩ := enumIdx_mem hp
  rw [List.get?_map] at hj2
  cases hh : hdrRow.get? j with
  | none => rw [hh] at hj2; cases hj2
  | some h0 =>
    rw [hh] at hj2
    injection hj2 with h2
    have : (rowOfRecord hdrRow rec).get? j = some (getProp rec (normalizeHeader h0)) := by
      rw [rowOfRecord, List.get?_map, hh]
      rfl
    rw [show List.getD (rowOfRecord hdrRow rec) p.1 Value.undef
        = ((rowOfRecord hdrRow rec).get? p.1).getD Value.undef from rfl]
    rw [show p.1 = j by omega, this, Option.getD_some, h2]

theorem buildObj_feedback_mem (nta : Int) (hdrRow : List Value) (rec : Record)
    (key : String) (hmem : key ∈ hdrRow.map normalizeHeader) :
    getProp (buildObj (hdrRow.map normalizeHeader) nta (rowOfRecord hdrRow rec)) key
      = parseField key nta (getProp rec key) := by
  rw [getProp_buildObj,
    lastParsed_feedback nta _ (fun k => getProp rec k) _ key (rowOfRecord_cells hdrRow rec)]
  have hany : (hdrRow.map normalizeHeader).any (fun h => h == key) = true :=
    List.any_eq_true.mpr ⟨key, hmem, by simp⟩
  rw [enumIdx_any, hany]
  rfl

theorem normalizedTargetAge_mod10 (now : Now) : normalizedTargetAge now % 10 = 0 := by
  unfold normalizedTargetAge
  generalize Int.fdiv (calculateAge BIRTH_DATE now.localDate) 10 = k
  omega

theorem parse_target_age_props (nta : Int) (v : Value) (h0 : 0 ≤ nta) (h100 : nta ≤ 100)
    (hmul : nta % 10 = 0) :
    ∃ a, parse_target_age nta v = Value.num a
      ∧ a % 10 = 0 ∧ 0 ≤ a ∧ a ≤ 100 ∧ nta ≤ a := by
  unfold parse_target_age
  cases hp : jsParseIntV v with
  | none => exact ⟨nta, rfl, hmul, h0, h100, le_refl _⟩
  | some a =>
    dsimp only
    split_ifs with hc
    · exact ⟨nta, rfl, hmul, h0, h100, le_refl _⟩
    · simp only [Bool.or_eq_true, not_or, beq_iff_eq, decide_eq_true_eq] at hc
      obtain ⟨⟨⟨-, -⟩, hlow⟩, hhigh⟩ := hc
      rw [Int.fdiv_eq_ediv _ (by norm_num)]
      exact ⟨a / 10 * 10, rfl, by omega, by omega, by omega, by omega⟩

/-- Re-normalizing one record under the same header and the same now leaves
the completed/completed_at pair unchanged. -/
theorem row_idempotent (now : Now) (hwfnow : now.dt.wf = true)
    (hdrRow row : List Value) (hw : wfRow row = true) :
    getProp (postProcess now (buildObj (hdrRow.map normalizeHeader)
        (normalizedTargetAge now) (rowOfRecord hdrRow (postProcess now
          (buildObj (hdrRow.map normalizeHeader) (normalizedTargetAge now) row)))))
      "completed"
      = getProp (postProcess now (buildObj (hdrRow.map normalizeHeader)
          (normalizedTargetAge now) row)) "completed"
    ∧ getProp (postProcess now (buildObj (hdrRow.map normalizeHeader)
        (normalizedTargetAge now) (rowOfRecord hdrRow (postProcess now
          (buildObj (hdrRow.map normalizeHeader) (normalizedTargetAge now) row)))))
      "completed_at"
      = getProp (postProcess now (buildObj (hdrRow.map normalizeHeader)
          (normalizedTargetAge now) row)) "completed_at" := by
  set nh := hdrRow.map normalizeHeader with hnh
  set nta := normalizedTargetAge now with hnta
  set obj := buildObj nh nta row with hobj
  set rec := postProcess now obj with hrec
  set obj2 := buildObj nh nta (rowOfRecord hdrRow rec) with hobj2
  have hcne : ("completed" : String) ≠ "completed_at" := by decide
  have hrc : getProp rec "completed" = getProp obj "completed" :=
    getProp_postProcess_ne now obj "completed" hcne
  have hrc2 : getProp (postProcess now obj2) "completed" = getProp obj2 "completed" :=
    getProp_postProcess_ne now obj2 "completed" hcne
  by_cases hmem : "completed" ∈ nh
  · obtain ⟨b, hb⟩ := buildObj_completed_bool nh nta row hmem
    have hobj2c : getProp obj2 "completed" = Value.boolean b := by
      rw [hobj2, buildObj_feedback_mem nta hdrRow rec "completed" hmem, hrc, hb]
      exact parse_completed_boolean b
    refine ⟨by rw [hrc2, hobj2c, hrc, hb], ?_⟩
    cases b with
    | false =>
      rw [postProcess_completed_at_null now obj (by rw [hb]; rfl),
        postProcess_completed_at_null now obj2 (by rw [hobj2c]; rfl)]
    | true =>
      have ht : truthy (getProp obj "completed") = true := by rw [hb]; rfl
      have ht2 : truthy (getProp obj2 "completed") = true := by rw [hobj2c]; rfl
      obtain ⟨d, hd, hlt, hca⟩ := pass_completed_at now hwfnow nh nta row hw ht
      by_cases hmem2 : "completed_at" ∈ nh
      · have hobj2ca : getProp obj2 "completed_at" = Value.str (toISOString d) := by
          rw [hobj2, buildObj_feedback_mem nta hdrRow rec "completed_at" hmem2, hca]
          exact parse_completed_at_iso hd
        rw [postProcess_completed_at_keep now obj2 d ht2 hd hobj2ca hlt, hca]
      · have hobjca : getProp obj "completed_at" = Value.undef :=
          buildObj_not_mem nh nta row "completed_at" hmem2
        have hobj2ca : getProp obj2 "completed_at" = Value.undef :=
          buildObj_not_mem nh nta _ "completed_at" hmem2
        rw [postProcess_completed_at_default now obj ht (by rw [hobjca]; rfl),
          postProcess_completed_at_default now obj2 ht2 (by rw [hobj2ca]; rfl)]
  · have hobjc : getProp obj "completed" = Value.undef :=
      buildObj_not_mem nh nta row "completed" hmem
    have hobj2c : getProp obj2 "completed" = Value.undef :=
      buildObj_not_mem nh nta _ "completed" hmem
    refine ⟨by rw [hrc2, hobj2c, hrc, hobjc], ?_⟩
    rw [postProcess_completed_at_null now obj (by rw [hobjc]; rfl),
      postProcess_completed_at_null now obj2 (by rw [hobj2c]; rfl)]

theorem splitDot_ne_nil : ∀ l : List Char, splitDot l ≠ [] := by
  intro l
  cases l with
  | nil => simp [splitDot]
  | cons c rest =>
    simp only [splitDot]
    cases splitDot rest with
    | nil => simp
    | cons g gs => split_ifs <;> simp

theorem joinDot_cons_cons (c : Char) (g : List Char) (gs : List (List Char)) :
    joinDot ((c :: g) :: gs) = c :: joinDot (g :: gs) := by
  cases gs <;> rfl

theorem joinDot_splitDot : ∀ l : List Char, joinDot (splitDot l) = l := by
  intro l
  induction l with
  | nil => rfl
  | cons c rest ih =>
    simp only [splitDot]
    cases hs : splitDot rest with
    | nil => exact absurd hs (splitDot_ne_nil rest)
    | cons g gs =>
      rw [hs] at ih
      dsimp only
      by_cases hc : c = '.'
      · subst hc
        simp only [if_pos rfl, joinDot, List.nil_append]
        rw [ih]
      · rw [if_neg hc, joinDot_cons_cons, ih]

theorem splitDot_append_front (g : List Char) (l : List Char)
    (hg : ∀ c ∈ g, c ≠ '.') :
    ∀ h t, splitDot l = h :: t → splitDot (g ++ l) = (g ++ h) :: t := by
  induction g with
  | nil => intro h t hl; simpa using hl
  | cons c g ih =>
    intro h t hl
    have hc : c ≠ '.' := hg c (by simp)
    have ihx := ih (fun x hx => hg x (by simp [hx])) h t hl
    simp only [List.cons_append, splitDot, List.append_eq, ihx, if_neg hc]

theorem splitDot_joinDot : ∀ segs : List (List Char), segs ≠ [] →
    (∀ g ∈ segs, ∀ c ∈ g, c ≠ '.') → splitDot (joinDot segs) = segs := by
  intro segs
  induction segs with
  | nil => intro h; exact absurd rfl h
  | cons g gs ih =>
    intro _ hdot
    cases gs with
    | nil =>
      have := splitDot_append_front g [] (hdot g (by simp)) [] [] rfl
      simpa [joinDot] using this
    | cons g2 t =>
      have ih2 : splitDot (joinDot (g2 :: t)) = g2 :: t :=
        ih (by simp) (fun x hx => hdot x (by simp [hx]))
      have hdotsplit : splitDot ('.' :: joinDot (g2 :: t)) = [] :: g2 :: t := by
        simp [splitDot, ih2]
      have := splitDot_append_front g ('.' :: joinDot (g2 :: t)) (hdot g (by simp))
        [] (g2 :: t) hdotsplit
      simpa [joinDot] using this

theorem alpha_not_digit {c : Char} (h : alphaChar c = true) : digitClass c = false := by
  simp only [alphaChar, decide_eq_true_eq] at h
  simp only [digitClass, decide_eq_false_iff_not, not_and]
  omega

theorem identStart_iff (c : Char) :
    identStartChar c = true ↔
      ((alphaChar c = true ∨ digitClass c = true ∨ c = '_' ∨ c = '$')
        ∧ digitClass c = false) := by
  constructor
  · intro h
    simp only [identStartChar, Bool.or_eq_true, beq_iff_eq] at h
    rcases h with (h | h) | h
    · exact ⟨Or.inl h, alpha_not_digit h⟩
    · exact ⟨Or.inr (Or.inr (Or.inl h)), by subst h; decide⟩
    · exact ⟨Or.inr (Or.inr (Or.inr h)), by subst h; decide⟩
  · rintro ⟨h1, h2⟩
    simp only [identStartChar, Bool.or_eq_true, beq_iff_eq]
    rcases h1 with h | h | h | h
    · exact Or.inl (Or.inl h)
    · exact absurd h (by simp [h2])
    · exact Or.inl (Or.inr h)
    · exact Or.inr h

theorem identChar_iff (c : Char) :
    identChar c = true ↔
      (alphaChar c = true ∨ digitClass c = true ∨ c = '_' ∨ c = '$') := by
  simp only [identChar, identStartChar, Bool.or_eq_true, beq_iff_eq]
  tauto

theorem segChars_iff (g : List Char) : segChars g = true ↔ specSegment g := by
  cases g with
  | nil => simp [segChars, specSegment]
  | cons c rest =>
    simp only [segChars, Bool.and_eq_true, specSegment]
    constructor
    · rintro ⟨hstart, hall⟩
      obtain ⟨hclass, hnd⟩ := (identStart_iff c).mp hstart
      refine ⟨by simp, ?_, ?_⟩
      · intro x hx
        rcases List.mem_cons.mp hx with rfl | hx
        · exact hclass
        · exact (identChar_iff x).mp (by
            rw [List.all_eq_true] at hall
            exact hall x hx)
      · intro x hx
        cases hx
        exact hnd
    · rintro ⟨-, hall, hhead⟩
      refine ⟨(identStart_iff c).mpr ⟨hall c (by simp), hhead c rfl⟩, ?_⟩
      rw [List.all_eq_true]
      intro x hx
      exact (identChar_iff x).mpr (hall x (by simp [hx]))

theorem isValidCallback_iff (cb : Value) :
    isValidCallback cb = true ↔ ∃ s, cb = Value.str s ∧ specDottedIdentifier s := by
  cases cb with
  | str s =>
    simp only [isValidCallback]
    constructor
    · intro h
      split_ifs at h with hs
      refine ⟨s, rfl, splitDot s.data, splitDot_ne_nil s.data, ?_, ?_⟩
      · intro g hg
        rw [List.all_eq_true] at h
        exact (segChars_iff g).mp (h g hg)
      · exact (joinDot_splitDot s.data).symm
    · rintro ⟨s', hs', segs, hne, hsegs, hjoin⟩
      injection hs' with he
      subst he
      have hdot : ∀ g ∈ segs, ∀ c ∈ g, c ≠ '.' := by
        intro g hg c hc
        rcases (hsegs g hg).2.1 c hc with h | h | h | h
        · intro he; subst he; revert h; decide
        · intro he; subst he; revert h; decide
        · intro he; subst he; exact absurd h (by decide)
        · intro he; subst he; exact absurd h (by decide)
      have hsplit : splitDot s.data = segs := by
        rw [hjoin]
        exact splitDot_joinDot segs hne hdot
      have hsne : s ≠ "" := by
        intro he
        subst he
        cases segs with
        | nil => exact hne rfl
        | cons g gs =>
          have hgne := (hsegs g (by simp)).1
          cases gs with
          | nil => exact hgne (by simpa [joinDot] using hjoin.symm)
          | cons g2 t =>
            have : g ++ '.' :: joinDot (g2 :: t) = [] := by
              simpa [joinDot] using hjoin.symm
            simp at this
      rw [if_neg hsne, hsplit, List.all_eq_true]
      intro g hg
      exact (segChars_iff g).mpr (hsegs g hg)
  | num n => simp [isValidCallback]
  | boolean b => simp [isValidCallback]
  | date d => simp [isValidCallback]
  | invalidDate => simp [isValidCallback]
  | null => simp [isValidCallback]
  | undef => simp [isValidCallback]

/-- C5: calculateAge returns nowDate.year - birthDate.year, decremented by 1
exactly when (nowDate.month, nowDate.day) lexicographically precedes
(birthDate.month, birthDate.day); it is total (never errors), and
calculateAge(1979-09-02, 2025-09-01) = 45, calculateAge(1979-09-02,
2025-09-02) = 46 and calculateAge(1979-09-02, 2025-09-03) = 46 (months are
getMonth values, so September is 8). -/
theorem claim_C5_calculateAge :
    (∀ b n : YMD, calculateAge b n
      = n.year - b.year
        - (if n.month < b.month ∨ (n.month = b.month ∧ n.day < b.day) then 1 else 0))
    ∧ calculateAge BIRTH_DATE ⟨2025, 8, 1⟩ = 45
    ∧ calculateAge BIRTH_DATE ⟨2025, 8, 2⟩ = 46
    ∧ calculateAge BIRTH_DATE ⟨2025, 8, 3⟩ = 46 := by
  refine ⟨fun b n => ?_, by decide, by decide, by decide⟩
  simp only [calculateAge]
  split_ifs <;> omega

/-- C2 counterexample: convertSheetDataToObjects has no array guard, so the
destructuring of a null input throws a TypeError instead of returning the
empty sequence. -/
theorem claim_C2_counterexample :
    convertSheetDataToObjectsDyn now0 (DynInput.prim Value.null)
      = Except.error "TypeError: value is not iterable" := rfl

/-- C2 amended: every array input with zero data rows (the empty array or an
array with only a header row) yields the empty sequence and never throws;
but a null or undefined input is not guarded and raises a TypeError. -/
theorem claim_C2_amended (now : Now) (data : List (List Value)) (h : data.length ≤ 1) :
    convertSheetDataToObjectsDyn now (DynInput.arr data) = Except.ok []
    ∧ (convertSheetDataToObjectsDyn now (DynInput.prim Value.null)).isOk = false
    ∧ (convertSheetDataToObjectsDyn now (DynInput.prim Value.undef)).isOk = false := by
  refine ⟨?_, rfl, rfl⟩
  match data, h with
  | [], _ => rfl
  | [hdr], _ => rfl
  | a :: b :: t, h => exact absurd h (by simp only [List.length_cons]; omega)

/-- C2 amended, witness: a header-only array maps to the empty sequence. -/
theorem claim_C2_amended_witness :
    convertSheetDataToObjectsDyn now0 (DynInput.arr [[Value.str "id"]]) = Except.ok [] :=
  (claim_C2_amended now0 [[Value.str "id"]] (by decide)).1

/-- C8: one now per call; each output record is a function of its row, the
header and the single captured instant, so data rows with identical cells
produce identical records. -/
theorem claim_C8_single_now (now : Now) (hdr : List Value) (rows : List (List Value))
    (i j : Nat) (hij : rows.get? i = rows.get? j) :
    (convertSheetDataToObjects now (hdr :: rows)).get? i
      = (convertSheetDataToObjects now (hdr :: rows)).get? j := by
  simp only [convertSheetDataToObjects]
  rw [List.get?_map, List.get?_map, hij]

/-- C8 witness: two identical completed rows yield the same record. -/
theorem claim_C8_single_now_witness :
    (convertSheetDataToObjects now0 [[Value.str "completed"], [Value.boolean true],
        [Value.boolean true]]).get? 0
      = (convertSheetDataToObjects now0 [[Value.str "completed"], [Value.boolean true],
          [Value.boolean true]]).get? 1 :=
  claim_C8_single_now now0 _ _ 0 1 rfl

/-- C9 counterexample: with two columns normalizing to completed_at and no
completed column, the cross-field pass forces the final value to null, which
is not the parsed value of the rightmost colliding column. -/
theorem claim_C9_counterexample :
    getProp ((convertSheetDataToObjects now0
        [[Value.str "completed_at", Value.str "completed_at"],
         [Value.str "2023-01-01T00:00:00.000Z",
          Value.str "2023-02-02T00:00:00.000Z"]]).getD 0 []) "completed_at"
      = Value.null
    ∧ parseField "completed_at" (normalizedTargetAge now0)
        (Value.str "2023-02-02T00:00:00.000Z")
      = Value.str "2023-02-02T00:00:00.000Z"
    ∧ Value.null ≠ Value.str "2023-02-02T00:00:00.000Z" := by
  exact ⟨by decide, by decide, by decide⟩

/-- C9 amended: when header names collide after normalization, the mapping
stage is last-write-wins for every key (the record slot holds the parse of
the rightmost such column), and this value survives to the final record for
every key other than completed_at, which the cross-field pass may override. -/
theorem claim_C9_amended (now : Now) (hdrRow : List Value) (rows : List (List Value))
    (row : List Value) (k i : Nat) (key : String)
    (hrow : rows.get? k = some row)
    (hi : (hdrRow.map normalizeHeader).get? i = some key)
    (hlast : ∀ j, i < j → (hdrRow.map normalizeHeader).get? j ≠ some key) :
    getProp (buildObj (hdrRow.map normalizeHeader) (normalizedTargetAge now) row) key
      = parseField key (normalizedTargetAge now) (List.getD row i Value.undef)
    ∧ (key ≠ "completed_at" →
        ∃ rec, (convertSheetDataToObjects now (hdrRow :: rows)).get? k = some rec
          ∧ getProp rec key
              = parseField key (normalizedTargetAge now) (List.getD row i Value.undef)) := by
  have hbase : getProp (buildObj (hdrRow.map normalizeHeader) (normalizedTargetAge now)
      row) key = parseField key (normalizedTargetAge now) (List.getD row i Value.undef) := by
    rw [getProp_buildObj, lastParsed_rightmost _ _ _ _ 0 i hi hlast]
    simp
  refine ⟨hbase, fun hk => ⟨postProcess now (buildObj (hdrRow.map normalizeHeader)
      (normalizedTargetAge now) row), ?_, ?_⟩⟩
  · simp only [convertSheetDataToObjects]
    rw [List.get?_map, hrow]
    rfl
  · rw [getProp_postProcess_ne _ _ _ hk, hbase]

/-- C9 amended, witness: headers Note and "note " collide on the key note and
the record holds the parse of the rightmost column. -/
theorem claim_C9_amended_witness :
    getProp (buildObj ([Value.str "Note", Value.str "note "].map normalizeHeader)
        (normalizedTargetAge now0) [Value.str "a", Value.str "b"]) "note"
      = parseField "note" (normalizedTargetAge now0)
          (List.getD [Value.str "a", Value.str "b"] 1 Value.undef) := by
  refine (claim_C9_amended now0 [Value.str "Note", Value.str "note "]
      [[Value.str "a", Value.str "b"]] [Value.str "a", Value.str "b"] 0 1 "note"
      rfl (by decide) ?_).1
  intro j hj
  rw [List.get?_eq_none.mpr (by simp; omega)]
  simp

/-- C3: when a target_age column exists (and the decade bucket computed from
the captured now is itself in range, as it is for every real call instant),
every output target_age is a multiple of 10 in [0,100], never below the
bucket floor(calculateAge(BIRTH_DATE, now)/10)*10; missing and unparsable
values and values below the bucket or above 100 are replaced by the bucket,
and in-range values are rounded down to a multiple of 10. -/
theorem claim_C3_target_age (now : Now)
    (h0 : 0 ≤ normalizedTargetAge now) (h100 : normalizedTargetAge now ≤ 100) :
    (∀ (hdrRow : List Value) (rows : List (List Value)),
      "target_age" ∈ hdrRow.map normalizeHeader →
      ∀ rec ∈ convertSheetDataToObjects now (hdrRow :: rows),
        ∃ a : Int, getProp rec "target_age" = Value.num a
          ∧ a % 10 = 0 ∧ 0 ≤ a ∧ a ≤ 100 ∧ normalizedTargetAge now ≤ a)
    ∧ (∀ v : Value, jsParseIntV v = none →
        parse_target_age (normalizedTargetAge now) v
          = Value.num (normalizedTargetAge now))
    ∧ (∀ (v : Value) (a : Int), jsParseIntV v = some a →
        (a < normalizedTargetAge now ∨ 100 < a) →
        parse_target_age (normalizedTargetAge now) v
          = Value.num (normalizedTargetAge now))
    ∧ (∀ (v : Value) (a : Int), jsParseIntV v = some a →
        normalizedTargetAge now ≤ a → a ≤ 100 →
        parse_target_age (normalizedTargetAge now) v = Value.num (a / 10 * 10)) := by
  refine ⟨?_, ?_, ?_, ?_⟩
  · intro hdrRow rows hmem rec hrec
    simp only [convertSheetDataToObjects] at hrec
    obtain ⟨row, hrowmem, rfl⟩ := List.mem_map.mp hrec
    rw [getProp_postProcess_ne _ _ _ (by decide), getProp_buildObj]
    have hs := lastParsed_isSome (normalizedTargetAge now) row "target_age" _ 0 hmem
    cases hl : lastParsed (normalizedTargetAge now) row
        (enumIdx 0 (hdrRow.map normalizeHeader)) "target_age" with
    | none => rw [hl] at hs; simp at hs
    | some v =>
      obtain ⟨i, hv⟩ := lastParsed_shape _ _ _ _ _ hl
      rw [Option.getD_some, hv,
        show parseField "target_age" (normalizedTargetAge now)
            (List.getD row i Value.undef)
          = parse_target_age (normalizedTargetAge now)
              (List.getD row i Value.undef) from rfl]
      exact parse_target_age_props _ _ h0 h100 (normalizedTargetAge_mod10 now)
  · intro v hp
    simp [parse_target_age, hp]
  · intro v a hp hrange
    rcases hrange with h | h <;> simp [parse_target_age, hp, h]
  · intro v a hp hge hle
    have hnull : v ≠ Value.null := by rintro rfl; simp [jsParseIntV] at hp
    have hundef : v ≠ Value.undef := by rintro rfl; simp [jsParseIntV] at hp
    simp only [parse_target_age, hp]
    rw [if_neg, Int.fdiv_eq_ediv _ (by norm_num)]
    simp only [Bool.or_eq_true, beq_iff_eq, decide_eq_true_eq, not_or]
    exact ⟨⟨⟨hnull, hundef⟩, by omega⟩, by omega⟩

/-- C3 witness: with the concrete instant (bucket 40), a raw 45 becomes 40,
satisfying every bound. -/
theorem claim_C3_target_age_witness :
    ∃ a : Int, getProp ((convertSheetDataToObjects now0
        [[Value.str "target_age"], [Value.num 45]]).getD 0 []) "target_age"
          = Value.num a
      ∧ a % 10 = 0 ∧ 0 ≤ a ∧ a ≤ 100 ∧ normalizedTargetAge now0 ≤ a :=
  (claim_C3_target_age now0 (by decide) (by decide)).1
    [Value.str "target_age"] [[Value.num 45]] (by decide)
    ((convertSheetDataToObjects now0
      [[Value.str "target_age"], [Value.num 45]]).getD 0 []) (by decide)

/-- C10: every output record has a completed_at property: the cross-field
pass sets it to null whenever completed is absent or falsy, and to a
non-null ISO-8601 string (of an instant not after the captured now) whenever
completed is truthy. -/
theorem claim_C10_completed_at_total (now : Now) (hwfnow : now.dt.wf = true)
    (hdrRow : List Value) (rows : List (List Value))
    (hwf : wfData (hdrRow :: rows) = true) :
    ∀ rec ∈ convertSheetDataToObjects now (hdrRow :: rows),
      hasProp rec "completed_at" = true
      ∧ (truthy (getProp rec "completed") = false →
          getProp rec "completed_at" = Value.null)
      ∧ (truthy (getProp rec "completed") = true →
          ∃ d, d.wf = true ∧ dtLt now.dt d = false
            ∧ getProp rec "completed_at" = Value.str (toISOString d)) := by
  intro rec hrec
  simp only [convertSheetDataToObjects] at hrec
  obtain ⟨row, hrowmem, rfl⟩ := List.mem_map.mp hrec
  have hwfrow : wfRow row = true := by
    simp only [wfData, List.all_cons, Bool.and_eq_true] at hwf
    exact List.all_eq_true.mp hwf.2 row hrowmem
  refine ⟨hasProp_postProcess_completed_at now _, fun hf => ?_, fun ht => ?_⟩
  · apply postProcess_completed_at_null
    rwa [getProp_postProcess_ne _ _ _ (by decide)] at hf
  · rw [getProp_postProcess_ne _ _ _ (by decide)] at ht
    exact pass_completed_at now hwfnow _ _ row hwfrow ht

/-- C10 witness: even with no completed or completed_at column, the record
carries a completed_at property, set to null. -/
theorem claim_C10_witness :
    hasProp ((convertSheetDataToObjects now0
        [[Value.str "id"], [Value.num 1]]).getD 0 []) "completed_at" = true := by
  have h := claim_C10_completed_at_total now0 (by decide) [Value.str "id"]
      [[Value.num 1]] (by decide)
      ((convertSheetDataToObjects now0 [[Value.str "id"], [Value.num 1]]).getD 0 [])
      (by decide)
  exact h.1

/-- C1 counterexample: a record from an input with no completed column has
completed_at null while completed is absent (undefined), so neither
completed = true nor completed = false holds and the claimed equivalence
of completed = false with completed_at = null fails right to left. -/
theorem claim_C1_counterexample :
    getProp ((convertSheetDataToObjects now0
        [[Value.str "id"], [Value.num 1]]).getD 0 []) "completed_at" = Value.null
    ∧ getProp ((convertSheetDataToObjects now0
        [[Value.str "id"], [Value.num 1]]).getD 0 []) "completed"
        ≠ Value.boolean false
    ∧ getProp ((convertSheetDataToObjects now0
        [[Value.str "id"], [Value.num 1]]).getD 0 []) "completed"
        ≠ Value.boolean true :=
  ⟨by decide, by decide, by decide⟩

/-- C1 amended: for inputs whose header row has a column normalizing to
completed, completed = true iff completed_at is a non-null ISO-8601 string
of an instant not after the captured now, and completed = false iff
completed_at is null; for inputs without such a column completed is absent
and completed_at is null. -/
theorem claim_C1_amended (now : Now) (hwfnow : now.dt.wf = true)
    (hdrRow : List Value) (rows : List (List Value))
    (hwf : wfData (hdrRow :: rows) = true) :
    ∀ rec ∈ convertSheetDataToObjects now (hdrRow :: rows),
      ("completed" ∈ hdrRow.map normalizeHeader →
        (getProp rec "completed" = Value.boolean true ↔
          ∃ d, d.wf = true ∧ dtLt now.dt d = false
            ∧ getProp rec "completed_at" = Value.str (toISOString d))
        ∧ (getProp rec "completed" = Value.boolean false ↔
            getProp rec "completed_at" = Value.null))
      ∧ ("completed" ∉ hdrRow.map normalizeHeader →
          getProp rec "completed" = Value.undef
          ∧ getProp rec "completed_at" = Value.null) := by
  intro rec hrec
  simp only [convertSheetDataToObjects] at hrec
  obtain ⟨row, hrowmem, rfl⟩ := List.mem_map.mp hrec
  have hwfrow : wfRow row = true := by
    simp only [wfData, List.all_cons, Bool.and_eq_true] at hwf
    exact List.all_eq_true.mp hwf.2 row hrowmem
  have hcomp := getProp_postProcess_ne now
    (buildObj (hdrRow.map normalizeHeader) (normalizedTargetAge now) row)
    "completed" (by decide)
  constructor
  · intro hmem
    obtain ⟨b, hb⟩ := buildObj_completed_bool _ _ row hmem
    cases b with
    | true =>
      have ht : truthy (getProp (buildObj (hdrRow.map normalizeHeader)
          (normalizedTargetAge now) row) "completed") = true := by rw [hb]; rfl
      obtain ⟨d, hd, hlt, hca⟩ := pass_completed_at now hwfnow _ _ row hwfrow ht
      refine ⟨⟨fun _ => ⟨d, hd, hlt, hca⟩, fun _ => by rw [hcomp, hb]⟩, ?_, ?_⟩
      · intro hfalse
        rw [hcomp, hb] at hfalse
        exact absurd hfalse (by simp)
      · intro hnull
        rw [hca] at hnull
        exact absurd hnull (by simp)
    | false =>
      have hf : truthy (getProp (buildObj (hdrRow.map normalizeHeader)
          (normalizedTargetAge now) row) "completed") = false := by rw [hb]; rfl
      have hca := postProcess_completed_at_null now _ hf
      refine ⟨⟨?_, ?_⟩, fun _ => hca, fun _ => by rw [hcomp, hb]⟩
      · intro htrue
        rw [hcomp, hb] at htrue
        exact absurd htrue (by simp)
      · rintro ⟨d, hd, hlt, hstr⟩
        rw [hca] at hstr
        exact absurd hstr (by simp)
  · intro hmem
    have hundef := buildObj_not_mem (hdrRow.map normalizeHeader)
      (normalizedTargetAge now) row "completed" hmem
    have hf : truthy (getProp (buildObj (hdrRow.map normalizeHeader)
        (normalizedTargetAge now) row) "completed") = false := by rw [hundef]; rfl
    exact ⟨by rw [hcomp, hundef], postProcess_completed_at_null now _ hf⟩

/-- C1 amended, witness: a completed-false row has completed_at forced to
null. -/
theorem claim_C1_amended_witness :
    getProp ((convertSheetDataToObjects now0
        [[Value.str "completed"], [Value.boolean false]]).getD 0 [])
      "completed_at" = Value.null := by
  have h := claim_C1_amended now0 (by decide) [Value.str "completed"]
      [[Value.boolean false]] (by decide)
      ((convertSheetDataToObjects now0
        [[Value.str "completed"], [Value.boolean false]]).getD 0 [])
      (by decide)
  exact ((h.1 (by decide)).2).mp (by decide)

/-- C4 counterexample: the field parser has no future check: a timestamp one
day after the captured now parses to its own ISO string, not to null as the
claim requires. -/
theorem claim_C4_counterexample :
    parse_completed_at (Value.str "2024-08-01T10:00:00.000Z")
      = Value.str "2024-08-01T10:00:00.000Z"
    ∧ dtLt now0.dt ⟨2024, 8, 1, 10, 0, 0, 0⟩ = true
    ∧ jsParseDate "2024-08-01T10:00:00.000Z" = some ⟨2024, 8, 1, 10, 0, 0, 0⟩
    ∧ Value.str "2024-08-01T10:00:00.000Z" ≠ Value.null :=
  ⟨by decide, by decide, by decide, by decide⟩

/-- C4 amended: the parser maps a valid timestamp (Date instance or
parseable string) to its ISO-8601 string regardless of whether it lies after
now, and every other value (missing, empty, unparsable, non-string
non-Date) to null; the future check is applied only by the cross-field
pass, so a completed-true row whose completed_at lies one day in the future
ends with completed_at equal to the captured now. -/
theorem claim_C4_amended :
    (∀ d : DT, d.wf = true →
      parse_completed_at (Value.date d) = Value.str (toISOString d))
    ∧ (∀ s : String, parse_completed_at (Value.str s)
        = match jsParseDate (jsTrim s) with
          | some d => Value.str (toISOString d)
          | none => Value.null)
    ∧ (∀ v : Value, (∀ d, v ≠ Value.date d) → (∀ s, v ≠ Value.str s) →
        parse_completed_at v = Value.null)
    ∧ getProp ((convertSheetDataToObjects now0
        [[Value.str "completed", Value.str "completed_at"],
         [Value.boolean true, Value.str "2024-08-01T10:00:00.000Z"]]).getD 0 [])
        "completed_at" = Value.str (toISOString now0.dt) := by
  refine ⟨fun d _ => rfl, ?_, ?_, by decide⟩
  · intro s
    simp only [parse_completed_at]
    by_cases h : jsTrim s = ""
    · rw [h]
      rfl
    · rw [if_pos (by simpa [bne_iff_ne] using h)]
  · intro v hd hs
    cases v with
    | date d => exact absurd rfl (hd d)
    | str s => exact absurd rfl (hs s)
    | num n => rfl
    | boolean b => rfl
    | invalidDate => rfl
    | null => rfl
    | undef => rfl

/-- C4 amended, witness: a well-formed Date cell parses to its ISO string. -/
theorem claim_C4_amended_witness :
    parse_completed_at (Value.date ⟨2024, 8, 1, 10, 0, 0, 0⟩)
      = Value.str (toISOString ⟨2024, 8, 1, 10, 0, 0, 0⟩) :=
  claim_C4_amended.1 ⟨2024, 8, 1, 10, 0, 0, 0⟩ (by decide)

/-- C6: doGet wraps the serialized records as callback(json); exactly when
the callback parameter is a string matching the dotted-identifier pattern
(segments of letters, digits, underscore and dollar, not starting with a
digit, joined by dots); every other callback value (missing, non-string, or
non-matching) falls back to the plain JSON serialization. -/
theorem claim_C6_jsonp (now : Now) (values : List (List Value)) (cb : Value) :
    (isValidCallback cb = true ↔ ∃ s, cb = Value.str s ∧ specDottedIdentifier s)
    ∧ (isValidCallback cb = true →
        doGet now true values cb
          = ⟨jsToString cb ++ "("
              ++ jsonStringify (convertSheetDataToObjects now values) ++ ");",
             Mime.javascript⟩)
    ∧ (isValidCallback cb = false →
        doGet now true values cb
          = ⟨jsonStringify (convertSheetDataToObjects now values), Mime.json⟩) := by
  refine ⟨isValidCallback_iff cb, fun h => ?_, fun h => ?_⟩
  · simp [doGet, h]
  · simp [doGet, h]

/-- C6 witness: a dotted identifier is wrapped, an identifier starting with
a digit falls back to plain JSON. -/
theorem claim_C6_jsonp_witness :
    doGet now0 true [] (Value.str "cb.fn") = ⟨"cb.fn([]);", Mime.javascript⟩
    ∧ doGet now0 true [] (Value.str "1bad") = ⟨"[]", Mime.json⟩ := by
  constructor
  · rw [(claim_C6_jsonp now0 [] (Value.str "cb.fn")).2.1 (by decide)]
    decide
  · rw [(claim_C6_jsonp now0 [] (Value.str "1bad")).2.2 (by decide)]
    decide

/-- C7: re-normalizing is idempotent on the completed pair: feeding the
records back as data rows under the same header and the same captured now
reproduces, position by position, the same completed and completed_at
values. -/
theorem claim_C7_idempotent (now : Now) (hwfnow : now.dt.wf = true)
    (hdrRow : List Value) (rows : List (List Value))
    (hwf : wfData (hdrRow :: rows) = true) (i : Nat) :
    ((convertSheetDataToObjects now (hdrRow ::
        (convertSheetDataToObjects now (hdrRow :: rows)).map
          (rowOfRecord hdrRow))).get? i).map
      (fun r => (getProp r "completed", getProp r "completed_at"))
    = ((convertSheetDataToObjects now (hdrRow :: rows)).get? i).map
        (fun r => (getProp r "completed", getProp r "completed_at")) := by
  simp only [convertSheetDataToObjects]
  rw [List.get?_map, List.get?_map, List.get?_map]
  cases hr : rows.get? i with
  | none => rfl
  | some row =>
    have hwfrow : wfRow row = true := by
      simp only [wfData, List.all_cons, Bool.and_eq_true] at hwf
      exact List.all_eq_true.mp hwf.2 row (List.get?_mem hr)
    have h := row_idempotent now hwfnow hdrRow row hwfrow
    simp only [Option.map_some']
    exact congrArg some (by rw [Prod.mk.injEq]; exact ⟨h.1, h.2⟩)

/-- C7 witness: a completed row with a past completion date keeps the same
pair after a second pass. -/
theorem claim_C7_idempotent_witness :
    ((convertSheetDataToObjects now0 ([Value.str "completed", Value.str "completed_at"] ::
        (convertSheetDataToObjects now0 ([Value.str "completed", Value.str "completed_at"] ::
          [[Value.boolean true, Value.str "2023-01-01T00:00:00.000Z"]])).map
          (rowOfRecord [Value.str "completed", Value.str "completed_at"]))).get? 0).map
      (fun r => (getProp r "completed", getProp r "completed_at"))
    = ((convertSheetDataToObjects now0 ([Value.str "completed", Value.str "completed_at"] ::
        [[Value.boolean true, Value.str "2023-01-01T00:00:00.000Z"]])).get? 0).map
        (fun r => (getProp r "completed", getProp r "completed_at")) :=
  claim_C7_idempotent now0 (by decide) _ _ (by decide) 0

end GasApi
